import Mathlib

/-
Verification of the likelihood engine of `likelihood.py`:
Poisson log-probability with outer broadcasting, response-matrix reduction,
systematics collapsing, truth-limit policies, Monte-Carlo p-values,
the basin-hopping step function, and the Jeffreys prior.

Arrays are embedded as functions from typed index sets (batch axes become
type parameters, bin axes become `Fin n`).  IEEE doubles along the
log-probability pipeline take only finite values, `-inf`, or `NaN`; they are
embedded as the three-constructor type `FloatVal`.  Python exceptions are
embedded as `Except String`.
-/

noncomputable section

open Classical

/-- An IEEE double as it occurs along the Poisson log-pmf pipeline: a finite
real value, negative infinity (log of a zero probability), or NaN.  Positive
infinity never arises in this pipeline, so it is not represented. -/
inductive FloatVal where
  | nan : FloatVal
  | neginf : FloatVal
  | val : ℝ → FloatVal

namespace FloatVal

/-- IEEE addition restricted to the values of `FloatVal`:
NaN propagates, `-inf` absorbs finite values. -/
def add : FloatVal → FloatVal → FloatVal
  | nan, _ => nan
  | _, nan => nan
  | neginf, _ => neginf
  | _, neginf => neginf
  | val a, val b => val (a + b)

/-- np.sum along an axis of length `n` (empty sum is `0.0`). -/
def sum : (n : ℕ) → (Fin n → FloatVal) → FloatVal
  | 0, _ => val 0
  | n + 1, f => (f 0).add (FloatVal.sum n (fun i => f i.succ))

/-- IEEE maximum as used by np.max: NaN propagates, `-inf` is the identity. -/
def fmax : FloatVal → FloatVal → FloatVal
  | nan, _ => nan
  | _, nan => nan
  | neginf, x => x
  | x, neginf => x
  | val a, val b => val (Max.max a b)

/-- np.max over a (nonempty) axis of length `m + 1`. -/
def maxArr : (m : ℕ) → (Fin (m + 1) → FloatVal) → FloatVal
  | 0, f => f 0
  | m + 1, f => (f 0).fmax (maxArr m (fun i => f i.succ))

/-- np.exp on the represented values: `exp(-inf) = 0.0`, `exp(NaN) = NaN`. -/
def exp : FloatVal → FloatVal
  | nan => nan
  | neginf => val 0
  | val a => val (Real.exp a)

/-- np.log on the represented values: `log 0 = -inf`, `log` of a negative
number is NaN, and `log(-inf) = log(NaN) = NaN`. -/
def log : FloatVal → FloatVal
  | nan => nan
  | neginf => nan
  | val a => if a < 0 then nan else if a = 0 then neginf else val (Real.log a)

/-- Division by a (positive) integer count, as in np.average. -/
def divNat : FloatVal → ℕ → FloatVal
  | nan, _ => nan
  | neginf, _ => neginf
  | val a, m => val (a / m)

/-- IEEE comparison `x <= y` on the represented values: any comparison
involving NaN is false, and `-inf` is below everything else. -/
def fle : FloatVal → FloatVal → Prop
  | nan, _ => False
  | _, nan => False
  | neginf, _ => True
  | val _, neginf => False
  | val a, val b => a ≤ b

end FloatVal

/-- scipy.stats.poisson.logpmf for an integer count `k ≥ 0`: NaN when the
rate is negative (invalid distribution argument), `log(pmf) = k·ln(lam) - lam
- ln(k!)` for a positive rate, and for rate `0` the pmf is `1` at `k = 0` and
`0` elsewhere. -/
def poissonLogPMF (k : ℕ) (lam : ℝ) : FloatVal :=
  if lam < 0 then .nan
  else if lam = 0 then (if k = 0 then .val 0 else .neginf)
  else .val (k * Real.log lam - lam - Real.log (Nat.factorial k))

/-- np.where(np.isfinite(lp), lp, -np.inf): every non-finite entry (NaN or an
infinity) is replaced by `-inf`. -/
def catchNonfinite : FloatVal → FloatVal
  | .val a => .val a
  | _ => .neginf

namespace LikelihoodMachine

/-- LikelihoodMachine._create_vector_array with `append=True`:
np.broadcast_to(vector, shape + vector.shape), i.e. the new axes `J` are
prepended and the original index `I` kept last. -/
def create_vector_array_append {α I J : Type} (v : I → α) : J → I → α :=
  fun _ i => v i

/-- LikelihoodMachine._create_vector_array with `append=False`:
np.repeat + reshape to vector.shape + shape, i.e. the original index `I`
stays first and the new axes `J` are appended. -/
def create_vector_array_prepend {α I J : Type} (v : I → α) : I → J → α :=
  fun i _ => v i

/-- LikelihoodMachine._translate: the einsum
`'...kl,...l->......k'` contracting the truth axis of the response matrix
stack against the truth axis of the truth-vector stack, for every
combination of the two batch indices. -/
def translate {B C : Type} {nr : ℕ} {κ : Type} [Fintype κ]
    (response_matrix : B → Fin nr → κ → ℝ) (truth_vector : C → κ → ℝ) :
    B → C → Fin nr → ℝ :=
  fun b c k => ∑ l, response_matrix b k l * truth_vector c l

/-- LikelihoodMachine.log_probability: the Poisson log-probability of each
data vector (batch index `A`) given each response matrix (batch index `B`)
and each truth vector (batch index `C`).  The steps mirror the source:
broadcast the response stack over the data batch axes, contract with the
truth stack (`_translate`), broadcast the data over the response and truth
batch axes and move its reco axis last, sum `poisson.logpmf` over the reco
axis, and finally replace non-finite results by `-inf`. -/
def log_probability {A B C : Type} {nr : ℕ} {κ : Type} [Fintype κ]
    (data_vector : A → Fin nr → ℕ) (response_matrix : B → Fin nr → κ → ℝ)
    (truth_vector : C → κ → ℝ) : A → B → C → FloatVal :=
  let resp : A → B → Fin nr → κ → ℝ := create_vector_array_append response_matrix
  let reco : A → B → C → Fin nr → ℝ := fun a => translate (resp a) truth_vector
  let data : A × Fin nr → B × C → ℕ :=
    create_vector_array_prepend (fun p : A × Fin nr => data_vector p.1 p.2)
  let dataMoved : A → B → C → Fin nr → ℕ := fun a b c k => data (a, k) (b, c)
  fun a b c =>
    catchNonfinite
      (FloatVal.sum nr (fun k => poissonLogPMF (dataMoved a b c k) (reco a b c k)))

/-- The dynamic `systematics` argument of `_collapse_systematics_axes`, for a
single systematics axis of length `n` and remaining (non-systematics) index
type `σ`: a tuple selecting one toy, an index array selecting a toy per
remaining index, or a string mode.  (`None` is filtered out by the callers
before the collapse is reached.) -/
inductive SystMode (n : ℕ) (σ : Type) where
  | tup : Fin n → SystMode n σ
  | indexArray : (σ → Fin n) → SystMode n σ
  | str : String → SystMode n σ

/-- LikelihoodMachine._collapse_systematics_axes over one systematics axis of
length `T + 1`: a tuple or index array selects entries, `'profile'` and
`'maximum'` take the elementwise np.max over the axis, `'marginal'` and
`'average'` take np.log(np.average(np.exp(ll))) over the axis, and any other
string raises ValueError. -/
def collapse_systematics {T : ℕ} {σ : Type} (systematics : SystMode (T + 1) σ)
    (ll : Fin (T + 1) → σ → FloatVal) : Except String (σ → FloatVal) :=
  match systematics with
  | .tup i => .ok (ll i)
  | .indexArray g => .ok (fun x => ll (g x) x)
  | .str s =>
    if s = "profile" ∨ s = "maximum" then
      .ok (fun x => FloatVal.maxArr T (fun b => ll b x))
    else if s = "marginal" ∨ s = "average" then
      .ok (fun x =>
        ((FloatVal.sum (T + 1) (fun b => (ll b x).exp)).divNat (T + 1)).log)
    else
      .error "Unknown systematics method!"

end LikelihoodMachine

/-- LikelihoodMachine.__init__ state: data vector, a stack of `T + 1`
response matrices, per-truth-bin validity limits, the out-of-limit policy
string, and the efficiency threshold used for the cached reduction. -/
structure LikelihoodMachine (T nr nt : ℕ) where
  data_vector : Fin nr → ℕ
  response_matrix : Fin (T + 1) → Fin nr → Fin nt → ℝ
  truth_limits : Fin nt → ℝ
  limit_method : String
  eff_threshold : ℝ

namespace LikelihoodMachine

/-- Efficiency mask of `_reduce_response_matrix`: truth column `j` is kept
when the column sum over the reco axis, maximized over all stacked toy
matrices, strictly exceeds the threshold. -/
def eff {T nr nt : ℕ} (m : LikelihoodMachine T nr nt) (j : Fin nt) : Prop :=
  m.eff_threshold <
    Finset.univ.sup' Finset.univ_nonempty
      (fun b : Fin (T + 1) => ∑ k, m.response_matrix b k j)

/-- Cached reduced response matrix: the columns kept by the efficiency
mask. -/
def reduced_response_matrix {T nr nt : ℕ} (m : LikelihoodMachine T nr nt) :
    Fin (T + 1) → Fin nr → {j : Fin nt // m.eff j} → ℝ :=
  fun b k j => m.response_matrix b k j.1

/-- LikelihoodMachine._reduce_truth_vector: the entries of a truth vector at
the mask-true truth bins. -/
def reduce_truth_vector {T nr nt : ℕ} (m : LikelihoodMachine T nr nt)
    (truth_vector : Fin nt → ℝ) : {j : Fin nt // m.eff j} → ℝ :=
  fun j => truth_vector j.1

/-- LikelihoodMachine._reduced_log_likelihood for one (reduced) truth vector:
log-probability of the data against the cached reduced response stack,
collapsed over the systematics axis. -/
def reduced_log_likelihood {T nr nt : ℕ} (m : LikelihoodMachine T nr nt)
    (reduced_truth_vector : {j : Fin nt // m.eff j} → ℝ)
    (systematics : SystMode (T + 1) Unit) : Except String FloatVal :=
  (collapse_systematics systematics
      (fun b (_ : Unit) =>
        log_probability (fun _ : Unit => m.data_vector) m.reduced_response_matrix
          (fun _ : Unit => reduced_truth_vector) () b ())).map
    (fun f => f ())

/-- LikelihoodMachine.log_likelihood for one truth vector: if any entry
exceeds the truth limits the call raises (method `'raise'`), returns `-inf`
(method `'prohibit'`), or raises ValueError (unknown method); otherwise the
truth vector is reduced and handed to `_reduced_log_likelihood`. -/
def log_likelihood {T nr nt : ℕ} (m : LikelihoodMachine T nr nt)
    (truth_vector : Fin nt → ℝ) (systematics : SystMode (T + 1) Unit) :
    Except String FloatVal :=
  if ∃ j, m.truth_limits j < truth_vector j then
    if m.limit_method = "raise" then
      .error "Truth value is above allowed limits!"
    else if m.limit_method = "prohibit" then
      .ok .neginf
    else
      .error "Unknown limit method"
  else
    m.reduced_log_likelihood (m.reduce_truth_vector truth_vector) systematics

/-- Reinterpretation of a `systematics` argument at a different
non-systematics batch shape: in the source the same dynamic value is handed
to `_collapse_systematics_axes` for arrays of different batch shapes; an
index array is composed with the shape map, tuples and strings are
unchanged. -/
def systToShape {T : ℕ} {σ σ' : Type} (f : σ' → σ) :
    SystMode (T + 1) σ → SystMode (T + 1) σ'
  | .tup i => .tup i
  | .indexArray g => .indexArray (fun x => g (f x))
  | .str s => .str s

/-- LikelihoodMachine.likelihood_p_value with `generator_matrix_index=None`:
the reduced log-likelihood `p0` of the real data at `truth_vector` is
computed; the Poisson sampler draws `N` fake data sets from the expectation
of each of the `T + 1` stacked matrices (the draw outcome `sample` is an
explicit argument); the fake sets are flattened, their log-likelihoods at the
same truth vector are collapsed over the systematics axis, the number `n`
with value at most `p0` is counted, and `n / N` is returned. -/
def likelihood_p_value {T nr nt : ℕ} (m : LikelihoodMachine T nr nt)
    (truth_vector : Fin nt → ℝ) (N : ℕ)
    (sample : Fin N → Fin (T + 1) → Fin nr → ℕ)
    (systematics : SystMode (T + 1) Unit) : Except String ℝ := do
  let rt := m.reduce_truth_vector truth_vector
  let p0 ← m.reduced_log_likelihood rt systematics
  let fake : Fin N × Fin (T + 1) → Fin nr → ℕ := fun j => sample j.1 j.2
  let prob ← collapse_systematics
    (systToShape (fun _ : Fin N × Fin (T + 1) => ()) systematics)
    (fun b j =>
      log_probability fake m.reduced_response_matrix (fun _ : Unit => rt) j b ())
  let n := (Finset.univ.filter (fun j : Fin N × Fin (T + 1) => (prob j).fle p0)).card
  return (n : ℝ) / N

/-- Python float modulus `a % r` for `r > 0`: the representative of `a`
modulo `r` in `[0, r)`. -/
def pymod (a r : ℝ) : ℝ := a - r * (⌊a / r⌋ : ℝ)

/-- Basin-hopping step function `step_fun` of `max_log_probability`: add the
perturbation, then fold any component above its upper limit back by the
excess modulo the range, then fold any component below its lower limit back
by the deficit modulo the range. -/
def step_fun {n : ℕ} (lower upper : Fin n → ℝ) (x dx : Fin n → ℝ) :
    Fin n → ℝ :=
  fun i =>
    let ret := x i + dx i
    let ranges := upper i - lower i
    let ret1 := if upper i < ret then upper i - pymod (ret - upper i) ranges else ret
    if ret1 < lower i then lower i + pymod (lower i - ret1) ranges else ret1

end LikelihoodMachine

/-- An IEEE double in the Fisher-matrix computation of the Jeffreys prior:
finite, positive infinity, negative infinity, or NaN.  Unlike the Poisson
log-pmf pipeline, this computation can produce positive infinities (a
nonzero derivative product divided by a zero reco expectation), so both
infinities are represented. -/
inductive FloatExt where
  | nan : FloatExt
  | posinf : FloatExt
  | neginf : FloatExt
  | val : ℝ → FloatExt

namespace FloatExt

/-- IEEE addition on the represented values. -/
def add : FloatExt → FloatExt → FloatExt
  | nan, _ => nan
  | _, nan => nan
  | posinf, neginf => nan
  | neginf, posinf => nan
  | posinf, _ => posinf
  | _, posinf => posinf
  | neginf, _ => neginf
  | _, neginf => neginf
  | val a, val b => val (a + b)

/-- IEEE multiplication on the represented values. -/
def mul : FloatExt → FloatExt → FloatExt
  | nan, _ => nan
  | _, nan => nan
  | posinf, posinf => posinf
  | posinf, neginf => neginf
  | neginf, posinf => neginf
  | neginf, neginf => posinf
  | posinf, val b => if b = 0 then nan else if 0 < b then posinf else neginf
  | val a, posinf => if a = 0 then nan else if 0 < a then posinf else neginf
  | neginf, val b => if b = 0 then nan else if 0 < b then neginf else posinf
  | val a, neginf => if a = 0 then nan else if 0 < a then neginf else posinf
  | val a, val b => val (a * b)

/-- IEEE division on the represented values.  The zero divisors occurring in
this computation are positive zeros (sums of non-negative magnitudes or
exact cancellations), so a nonzero numerator over zero carries the sign of
the numerator, and `0/0` is NaN. -/
def div : FloatExt → FloatExt → FloatExt
  | nan, _ => nan
  | _, nan => nan
  | posinf, posinf => nan
  | posinf, neginf => nan
  | neginf, posinf => nan
  | neginf, neginf => nan
  | posinf, val b => if 0 ≤ b then posinf else neginf
  | neginf, val b => if 0 ≤ b then neginf else posinf
  | val _, posinf => val 0
  | val _, neginf => val 0
  | val a, val b =>
    if b = 0 then (if a = 0 then nan else if 0 < a then posinf else neginf)
    else val (a / b)

/-- np.nansum replaces NaN entries by `0.0` before summing. -/
def denan : FloatExt → FloatExt
  | nan => val 0
  | x => x

/-- np.nansum along an axis of length `n`: NaN terms are treated as zero,
but infinities are kept and propagate through the IEEE sum. -/
def nansum : (n : ℕ) → (Fin n → FloatExt) → FloatExt
  | 0, _ => val 0
  | n + 1, f => (denan (f 0)).add (nansum n (fun i => f i.succ))

end FloatExt

/-- JeffreysPrior.__init__ state, after the constructor has reshaped the
response stack to `T + 1` matrices, replaced missing parameter limits by
the corresponding infinities, and replaced a missing total truth limit by
infinity. -/
structure JeffreysPrior (T p nr nt : ℕ) where
  response_matrix : Fin (T + 1) → Fin nr → Fin nt → ℝ
  translate : (Fin p → ℝ) → Fin nt → ℝ
  lower_limits : Fin p → EReal
  upper_limits : Fin p → EReal
  total_truth_limit : EReal
  default_values : Fin p → ℝ
  dx : Fin p → ℝ

namespace JeffreysPrior

/-- reco_expectation inside fisher_matrix: np.tensordot of the translated
truth vector with the selected response matrix over the truth axis. -/
def reco_expectation {T p nr nt : ℕ} (J : JeffreysPrior T p nr nt)
    (toy_index : Fin (T + 1)) (θ : Fin p → ℝ) : Fin nr → ℝ :=
  fun k => ∑ l, J.translate θ l * J.response_matrix toy_index k l

/-- Central finite difference of the reco expectation with respect to
parameter `i` (scipy.misc.derivative with the default 3-point central
stencil), as the float computation `(f(x+dx) - f(x-dx)) / (2·dx)`.  The
numerator and denominator are exact reals; the division is IEEE. -/
def fisher_diff {T p nr nt : ℕ} (J : JeffreysPrior T p nr nt)
    (parameters : Fin p → ℝ) (toy_index : Fin (T + 1)) :
    Fin p → Fin nr → FloatExt :=
  fun i k =>
    FloatExt.div
      (FloatExt.val
        (J.reco_expectation toy_index
            (Function.update parameters i (parameters i + J.dx i)) k -
          J.reco_expectation toy_index
            (Function.update parameters i (parameters i - J.dx i)) k))
      (FloatExt.val (2 * J.dx i))

/-- JeffreysPrior.fisher_matrix as the float computation: entry `(i, j)` is
`np.nansum(diff_i * diff_j / expect)` over the reco bins.  NaN terms
(`0·0/0` bins) are dropped by the nansum, but a nonzero derivative product
over a zero expectation contributes an infinity that is kept and propagates
into the entry. -/
def fisher_matrix_ieee {T p nr nt : ℕ} (J : JeffreysPrior T p nr nt)
    (parameters : Fin p → ℝ) (toy_index : Fin (T + 1)) :
    Fin p → Fin p → FloatExt :=
  fun i j =>
    FloatExt.nansum nr (fun k =>
      FloatExt.div
        ((J.fisher_diff parameters toy_index i k).mul
          (J.fisher_diff parameters toy_index j k))
        (FloatExt.val (J.reco_expectation toy_index parameters k)))

/-- The Fisher matrix in exact real arithmetic (real division, with the
convention `a / 0 = 0`).  This is the mathematical counterpart of the float
computation: wherever an entry of `fisher_matrix_ieee` is finite it equals
the corresponding entry here (`fisher_ieee_val_eq`); entries where the float
computation yields an infinity or NaN have no exact counterpart. -/
def fisher_matrix {T p nr nt : ℕ} (J : JeffreysPrior T p nr nt)
    (parameters : Fin p → ℝ) (toy_index : Fin (T + 1)) :
    Matrix (Fin p) (Fin p) ℝ :=
  let diff : Fin p → Fin nr → ℝ := fun i k =>
    (J.reco_expectation toy_index
        (Function.update parameters i (parameters i + J.dx i)) k -
      J.reco_expectation toy_index
        (Function.update parameters i (parameters i - J.dx i)) k) /
      (2 * J.dx i)
  Matrix.of fun i j =>
    ∑ k, diff i k * diff j k / J.reco_expectation toy_index parameters k

/-- JeffreysPrior.__call__: `-inf` if any parameter is outside its limits or
the translated total truth exceeds the total truth limit.  Otherwise the
source feeds the float Fisher matrix to np.linalg.slogdet and returns half
the log-determinant: when every entry of the float Fisher matrix is finite
this is `-inf` for a singular matrix and `0.5·ln|det|` otherwise, computed
here on the exact counterpart, which then agrees entrywise with the float
matrix.  When some entry is non-finite, slogdet runs on infinities or NaNs;
that regime is outside this embedding and is marked `none`. -/
def call {T p nr nt : ℕ} (J : JeffreysPrior T p nr nt) (value : Fin p → ℝ)
    (toy_index : Fin (T + 1)) : Option FloatVal :=
  if (∃ i, (value i : EReal) < J.lower_limits i) ∨
      (∃ i, J.upper_limits i < (value i : EReal)) then
    some .neginf
  else if J.total_truth_limit < ((∑ l, J.translate value l : ℝ) : EReal) then
    some .neginf
  else if ∀ i j, ∃ x, J.fisher_matrix_ieee value toy_index i j = FloatExt.val x then
    some (if (J.fisher_matrix value toy_index).det = 0 then .neginf
      else .val (0.5 * Real.log |(J.fisher_matrix value toy_index).det|))
  else
    none

/-- Truth value of a 1-d numpy float array, as taken by Python's `or`:
an empty array is falsy, a one-element array has the truth value of its
entry, and any larger array raises ValueError. -/
def ndarray_truth_value (a : List ℝ) : Except String Bool :=
  match a with
  | [] => .ok false
  | [x] => .ok (if x = 0 then false else true)
  | _ => .error "The truth value of an array with more than one element is ambiguous."

/-- The constructor line `self.dx = dx or np.full(self._npar, 1e-3)` under
Python's truthiness semantics: `None` and falsy values select the default
step array, a truthy value is kept, and evaluating the truth value of a
multi-element array raises ValueError. -/
def init_dx (npar : ℕ) (dx : Option (List ℝ)) : Except String (List ℝ) :=
  match dx with
  | none => .ok (List.replicate npar (1 / 1000))
  | some a => do
      let b ← ndarray_truth_value a
      return (if b then a else List.replicate npar (1 / 1000))

end JeffreysPrior

/-- Concrete machine for evaluations: data `[1]`, two stacked `[[1]]`
response matrices, truth limits `[2]`, method `'raise'`, threshold `0`. -/
def exampleMachine : LikelihoodMachine 1 1 1 :=
  ⟨fun _ => 1, fun _ _ _ => 1, fun _ => 2, "raise", 0⟩

/-- Concrete one-parameter prior for evaluations: a single `[[1]]` response
matrix, identity translation, unbounded parameter and total-truth limits,
default value `1` and the default step `1e-3`. -/
def exampleJeffreys : JeffreysPrior 0 1 1 1 :=
  ⟨fun _ _ _ => 1, fun v _ => v 0, fun _ => ⊥, fun _ => ⊤, ⊤, fun _ => 1,
    fun _ => 1 / 1000⟩

/-! Basic facts about the embedded IEEE values. -/

namespace FloatVal

theorem add_ne_nan {a b : FloatVal} (ha : a ≠ nan) (hb : b ≠ nan) :
    a.add b ≠ nan := by
  cases a <;> cases b <;> simp_all [add]

theorem add_neginf_left {b : FloatVal} (hb : b ≠ nan) :
    neginf.add b = neginf := by
  cases b <;> simp_all [add]

theorem add_neginf_right {a : FloatVal} (ha : a ≠ nan) :
    a.add neginf = neginf := by
  cases a <;> simp_all [add]

theorem sum_ne_nan : ∀ {n : ℕ} {f : Fin n → FloatVal},
    (∀ i, f i ≠ nan) → FloatVal.sum n f ≠ nan
  | 0, _, _ => by simp [FloatVal.sum]
  | n + 1, f, h =>
    add_ne_nan (h 0) (sum_ne_nan (fun i => h i.succ))

theorem sum_eq_neginf : ∀ {n : ℕ} {f : Fin n → FloatVal},
    (∀ i, f i ≠ nan) → ∀ i₀ : Fin n, f i₀ = neginf → FloatVal.sum n f = neginf
  | 0, _, _, i₀, _ => i₀.elim0
  | n + 1, f, h, i₀, h₀ => by
    induction i₀ using Fin.cases with
    | zero =>
      show (f 0).add _ = neginf
      rw [h₀]
      exact add_neginf_left (sum_ne_nan (fun i => h i.succ))
    | succ j =>
      show (f 0).add _ = neginf
      rw [sum_eq_neginf (fun i => h i.succ) j h₀]
      exact add_neginf_right (h 0)

theorem log_val_pos {a : ℝ} (ha : 0 < a) : (val a).log = val (Real.log a) := by
  simp only [log]
  rw [if_neg (not_lt.mpr ha.le), if_neg ha.ne']

end FloatVal

theorem catchNonfinite_ne_nan (x : FloatVal) : catchNonfinite x ≠ .nan := by
  cases x <;> simp [catchNonfinite]

theorem catchNonfinite_of_ne_nan {x : FloatVal} (h : x ≠ .nan) :
    catchNonfinite x = x := by
  cases x <;> simp_all [catchNonfinite]

theorem poissonLogPMF_ne_nan {k : ℕ} {lam : ℝ} (h : 0 ≤ lam) :
    poissonLogPMF k lam ≠ .nan := by
  unfold poissonLogPMF
  rw [if_neg (not_lt.mpr h)]
  by_cases h0 : lam = 0
  · rw [if_pos h0]
    by_cases hk : k = 0 <;> simp [hk]
  · rw [if_neg h0]
    simp

theorem poissonLogPMF_zero_rate {k : ℕ} (hk : 0 < k) :
    poissonLogPMF k 0 = .neginf := by
  unfold poissonLogPMF
  rw [if_neg (lt_irrefl 0), if_pos rfl, if_neg (Nat.pos_iff_ne_zero.mp hk)]

namespace LikelihoodMachine

/-- C2: For a data vector `d`, response matrix `R` and truth vector `t`,
all non-negative, with expectation `lam = R·t`, `log_probability` equals the
sum over reco bins of `poisson.logpmf (d k) (lam k)`; it is `-inf` whenever
some `lam k = 0` with `d k > 0`; and for arbitrary inputs the result is
never NaN (any non-finite intermediate is mapped to `-inf`). -/
theorem log_probability_poisson {nr nt : ℕ} (d : Fin nr → ℕ)
    (R : Fin nr → Fin nt → ℝ) (t : Fin nt → ℝ)
    (hR : ∀ k l, 0 ≤ R k l) (ht : ∀ l, 0 ≤ t l) :
    (log_probability (fun _ : Unit => d) (fun _ : Unit => R)
        (fun _ : Unit => t) () () () =
      FloatVal.sum nr (fun k => poissonLogPMF (d k) (∑ l, R k l * t l)))
    ∧ ((∃ k, (∑ l, R k l * t l) = 0 ∧ 0 < d k) →
        log_probability (fun _ : Unit => d) (fun _ : Unit => R)
          (fun _ : Unit => t) () () () = .neginf)
    ∧ (∀ {nr' nt' : ℕ} (d' : Fin nr' → ℕ) (R' : Fin nr' → Fin nt' → ℝ)
        (t' : Fin nt' → ℝ),
        log_probability (fun _ : Unit => d') (fun _ : Unit => R')
          (fun _ : Unit => t') () () () ≠ .nan) := by
  have hlam : ∀ k, 0 ≤ ∑ l, R k l * t l := fun k =>
    Finset.sum_nonneg (fun l _ => mul_nonneg (hR k l) (ht l))
  have hterm : ∀ k, poissonLogPMF (d k) (∑ l, R k l * t l) ≠ .nan := fun k =>
    poissonLogPMF_ne_nan (hlam k)
  refine ⟨?_, ?_, ?_⟩
  · show catchNonfinite
        (FloatVal.sum nr (fun k => poissonLogPMF (d k) (∑ l, R k l * t l))) = _
    exact catchNonfinite_of_ne_nan (FloatVal.sum_ne_nan hterm)
  · rintro ⟨k, hk0, hkpos⟩
    show catchNonfinite
        (FloatVal.sum nr (fun k => poissonLogPMF (d k) (∑ l, R k l * t l))) = _
    rw [FloatVal.sum_eq_neginf hterm k (by rw [hk0]; exact poissonLogPMF_zero_rate hkpos)]
    rfl
  · intro nr' nt' d' R' t'
    exact catchNonfinite_ne_nan _

/-- Witness for C2 at a concrete input: `d = [1]`, `R = [[1]]`, `t = [1]`. -/
theorem log_probability_poisson_witness :
    (∀ k l : Fin 1, 0 ≤ (fun _ _ : Fin 1 => (1 : ℝ)) k l) ∧
    (∀ l : Fin 1, 0 ≤ (fun _ : Fin 1 => (1 : ℝ)) l) ∧
    log_probability (fun _ : Unit => fun _ : Fin 1 => (1 : ℕ))
        (fun _ : Unit => fun _ _ : Fin 1 => (1 : ℝ))
        (fun _ : Unit => fun _ : Fin 1 => (1 : ℝ)) () () () =
      FloatVal.sum 1 (fun k =>
        poissonLogPMF ((fun _ : Fin 1 => (1 : ℕ)) k)
          (∑ l, (fun _ _ : Fin 1 => (1 : ℝ)) k l * (fun _ : Fin 1 => (1 : ℝ)) l)) :=
  ⟨fun _ _ => zero_le_one, fun _ => zero_le_one,
    (log_probability_poisson (fun _ => 1) (fun _ _ => 1) (fun _ => 1)
      (fun _ _ => zero_le_one) (fun _ => zero_le_one)).1⟩

/-- C4: Collapsing the systematics axis with `'profile'` (or `'maximum'`)
returns the elementwise maximum over that axis, and `'marginal'` (or
`'average'`) returns `ln(mean(exp(x)))` over that axis (averaging
probabilities, not log-probabilities); for the `(2,2)` array
`x = [[0,1],[1,0]]` the marginal collapse over the systematics axis is
`[ln((1+e)/2), ln((e+1)/2)]`. -/
theorem collapse_profile_marginal :
    (∀ (T : ℕ) (σ : Type) (ll : Fin (T + 1) → σ → FloatVal),
        collapse_systematics (.str "profile") ll =
          .ok (fun x => FloatVal.maxArr T (fun b => ll b x)) ∧
        collapse_systematics (.str "maximum") ll =
          .ok (fun x => FloatVal.maxArr T (fun b => ll b x)) ∧
        collapse_systematics (.str "marginal") ll =
          .ok (fun x =>
            ((FloatVal.sum (T + 1) (fun b => (ll b x).exp)).divNat (T + 1)).log) ∧
        collapse_systematics (.str "average") ll =
          .ok (fun x =>
            ((FloatVal.sum (T + 1) (fun b => (ll b x).exp)).divNat (T + 1)).log))
    ∧ collapse_systematics (SystMode.str "marginal")
        (fun (b : Fin 2) (j : Fin 2) => .val (![![0, 1], ![1, 0]] b j)) =
      .ok (fun j =>
        .val (![Real.log ((1 + Real.exp 1) / 2),
                Real.log ((Real.exp 1 + 1) / 2)] j)) := by
  constructor
  · intro T σ ll
    refine ⟨?_, ?_, ?_, ?_⟩ <;> simp [collapse_systematics]
  · simp only [collapse_systematics, String.reduceEq, or_self, or_false, false_or,
      reduceIte, Except.ok.injEq]
    funext j
    fin_cases j <;>
    · simp [FloatVal.sum, FloatVal.add, FloatVal.exp, FloatVal.divNat,
        Real.exp_zero, Fin.succ_zero_eq_one]
      rw [FloatVal.log_val_pos (by positivity)]
      try congr 2
      try ring

/-- C9: A `systematics` string that is none of `'profile'`, `'maximum'`,
`'marginal'`, `'average'` makes the collapse raise ValueError instead of
returning a value, also when reached through `log_likelihood` on a machine
with stacked response matrices. -/
theorem collapse_unknown_mode_error {T : ℕ} {σ : Type} {nr nt : ℕ} (s : String)
    (hs : s ≠ "profile" ∧ s ≠ "maximum" ∧ s ≠ "marginal" ∧ s ≠ "average")
    (ll : Fin (T + 1) → σ → FloatVal)
    (m : LikelihoodMachine T nr nt) (t : Fin nt → ℝ)
    (ht : ∀ j, t j ≤ m.truth_limits j) :
    collapse_systematics (.str s) ll = .error "Unknown systematics method!" ∧
    m.log_likelihood t (.str s) = .error "Unknown systematics method!" := by
  obtain ⟨h1, h2, h3, h4⟩ := hs
  have hcol : ∀ {σ' : Type} (ll' : Fin (T + 1) → σ' → FloatVal),
      collapse_systematics (.str s) ll' = .error "Unknown systematics method!" := by
    intro σ' ll'
    simp only [collapse_systematics]
    rw [if_neg (by simp [h1, h2]), if_neg (by simp [h3, h4])]
  refine ⟨hcol ll, ?_⟩
  have hnot : ¬ ∃ j, m.truth_limits j < t j := by push_neg; exact ht
  unfold log_likelihood reduced_log_likelihood
  rw [if_neg hnot, hcol]
  rfl

/-- Witness for C9 at the concrete invalid string `'banana'`. -/
theorem collapse_unknown_mode_error_witness :
    ("banana" ≠ "profile" ∧ "banana" ≠ "maximum" ∧ "banana" ≠ "marginal" ∧
      "banana" ≠ "average") ∧
    (collapse_systematics (.str "banana")
        (fun (_ : Fin 1) (_ : Unit) => FloatVal.val 0) =
      .error "Unknown systematics method!" ∧
    (LikelihoodMachine.mk (fun _ : Fin 1 => 0) (fun (_ : Fin 1) (_ : Fin 1) (_ : Fin 1) => (0 : ℝ))
        (fun _ : Fin 1 => 0) "raise" 0).log_likelihood
        (fun _ => 0) (.str "banana") = .error "Unknown systematics method!") :=
  ⟨by simp, collapse_unknown_mode_error "banana" (by simp)
    (fun _ _ => FloatVal.val 0)
    (LikelihoodMachine.mk (fun _ : Fin 1 => 0) (fun (_ : Fin 1) (_ : Fin 1) (_ : Fin 1) => (0 : ℝ))
      (fun _ : Fin 1 => 0) "raise" 0)
    (fun _ => 0) (fun _ => le_refl 0)⟩

theorem collapse_profile_ok {T : ℕ} {σ : Type} (ll : Fin (T + 1) → σ → FloatVal) :
    collapse_systematics (.str "profile") ll =
      .ok (fun x => FloatVal.maxArr T (fun b => ll b x)) := by
  simp [collapse_systematics]

/-- C6: If some truth entry strictly exceeds the configured truth limits,
`log_likelihood` raises under limit method `'raise'` and returns `-inf`
under `'prohibit'`; if every entry is within the limits, neither happens:
the call delegates to the reduced log-likelihood, and with the default
`'profile'` mode a collapsed log-likelihood value is returned. -/
theorem log_likelihood_limit_policy {T nr nt : ℕ}
    (m : LikelihoodMachine T nr nt) (t : Fin nt → ℝ)
    (sys : SystMode (T + 1) Unit) :
    ((∃ j, m.truth_limits j < t j) →
      (m.limit_method = "raise" →
        m.log_likelihood t sys = .error "Truth value is above allowed limits!") ∧
      (m.limit_method = "prohibit" →
        m.log_likelihood t sys = .ok .neginf))
    ∧ ((∀ j, t j ≤ m.truth_limits j) →
      m.log_likelihood t sys =
        m.reduced_log_likelihood (m.reduce_truth_vector t) sys ∧
      ∃ v, m.log_likelihood t (.str "profile") = .ok v) := by
  constructor
  · intro hex
    constructor
    · intro hm
      unfold log_likelihood
      rw [if_pos hex, if_pos hm]
    · intro hm
      unfold log_likelihood
      rw [if_pos hex, hm]
      simp
  · intro hin
    have hnot : ¬ ∃ j, m.truth_limits j < t j := by push_neg; exact hin
    constructor
    · unfold log_likelihood
      rw [if_neg hnot]
    · refine ⟨FloatVal.maxArr T (fun b =>
          log_probability (fun _ : Unit => m.data_vector) m.reduced_response_matrix
            (fun _ : Unit => m.reduce_truth_vector t) () b ()), ?_⟩
      unfold log_likelihood reduced_log_likelihood
      rw [if_neg hnot, collapse_profile_ok]
      rfl

/-- Witness for C6: a machine in `'raise'` mode raises on an out-of-limit
truth vector, one in `'prohibit'` mode returns `-inf`, and an in-limit truth
vector is evaluated normally. -/
theorem log_likelihood_limit_policy_witness :
    (∃ j : Fin 1, (LikelihoodMachine.mk (fun _ : Fin 1 => 0) (fun (_ : Fin 1) (_ : Fin 1) (_ : Fin 1) => (0 : ℝ))
        (fun _ : Fin 1 => 0) "raise" 0).truth_limits j < (1 : ℝ)) ∧
    (LikelihoodMachine.mk (fun _ : Fin 1 => 0) (fun (_ : Fin 1) (_ : Fin 1) (_ : Fin 1) => (0 : ℝ))
        (fun _ : Fin 1 => 0) "raise" 0).log_likelihood (fun _ => 1)
        (.str "profile") = .error "Truth value is above allowed limits!" ∧
    (LikelihoodMachine.mk (fun _ : Fin 1 => 0) (fun (_ : Fin 1) (_ : Fin 1) (_ : Fin 1) => (0 : ℝ))
        (fun _ : Fin 1 => 0) "prohibit" 0).log_likelihood (fun _ => 1)
        (.str "profile") = .ok .neginf ∧
    ∃ v, (LikelihoodMachine.mk (fun _ : Fin 1 => 0) (fun (_ : Fin 1) (_ : Fin 1) (_ : Fin 1) => (0 : ℝ))
        (fun _ : Fin 1 => 1) "raise" 0).log_likelihood (fun _ => 1)
        (.str "profile") = .ok v :=
  ⟨⟨0, by norm_num⟩,
    ((log_likelihood_limit_policy
        (LikelihoodMachine.mk (fun _ : Fin 1 => 0) (fun (_ : Fin 1) (_ : Fin 1) (_ : Fin 1) => (0 : ℝ))
          (fun _ : Fin 1 => 0) "raise" 0) (fun _ => 1) (.str "profile")).1
      ⟨0, by norm_num⟩).1 rfl,
    ((log_likelihood_limit_policy
        (LikelihoodMachine.mk (fun _ : Fin 1 => 0) (fun (_ : Fin 1) (_ : Fin 1) (_ : Fin 1) => (0 : ℝ))
          (fun _ : Fin 1 => 0) "prohibit" 0) (fun _ => 1) (.str "profile")).1
      ⟨0, by norm_num⟩).2 rfl,
    ((log_likelihood_limit_policy
        (LikelihoodMachine.mk (fun _ : Fin 1 => 0) (fun (_ : Fin 1) (_ : Fin 1) (_ : Fin 1) => (0 : ℝ))
          (fun _ : Fin 1 => 1) "raise" 0) (fun _ => 1) (.str "profile")).2
      (fun _ => le_refl 1)).2⟩

theorem sum_subtype_eq_sum {nt : ℕ} (p : Fin nt → Prop) (f : Fin nt → ℝ)
    (h : ∀ j, ¬ p j → f j = 0) :
    (∑ j : {j : Fin nt // p j}, f j.1) = ∑ j, f j := by
  calc (∑ j : {j : Fin nt // p j}, f j.1)
      = ∑ j ∈ Finset.univ.filter p, f j :=
        (Finset.sum_subtype (Finset.univ.filter p) (fun x => by simp) f).symm
    _ = ∑ j, f j :=
        Finset.sum_filter_of_ne (fun x _ hf => by_contra fun hp => hf (h x hp))

theorem response_zero_of_not_eff {T nr nt : ℕ} (m : LikelihoodMachine T nr nt)
    (hthr : m.eff_threshold = 0)
    (hR : ∀ b k j, 0 ≤ m.response_matrix b k j)
    {j : Fin nt} (hj : ¬ m.eff j) (b : Fin (T + 1)) (k : Fin nr) :
    m.response_matrix b k j = 0 := by
  unfold eff at hj
  rw [hthr] at hj
  push_neg at hj
  have hle : ∑ k', m.response_matrix b k' j ≤ 0 :=
    le_trans (Finset.le_sup' (fun b' : Fin (T + 1) =>
      ∑ k', m.response_matrix b' k' j) (Finset.mem_univ b)) hj
  have hsum0 : ∑ k', m.response_matrix b k' j = 0 :=
    le_antisymm hle (Finset.sum_nonneg fun k' _ => hR b k' j)
  exact (Finset.sum_eq_zero_iff_of_nonneg (fun k' _ => hR b k' j)).mp hsum0 k
    (Finset.mem_univ k)

/-- C5: For a machine built with the default efficiency threshold `0` from a
non-negative response stack, and any truth vector within the truth limits,
`log_likelihood` computed through the cached reduced response matrix and
reduced truth vector equals the collapsed full-array `log_probability` on
the unreduced inputs. -/
theorem log_likelihood_reduction_lossless {T nr nt : ℕ}
    (m : LikelihoodMachine T nr nt) (hthr : m.eff_threshold = 0)
    (hR : ∀ b k j, 0 ≤ m.response_matrix b k j)
    (t : Fin nt → ℝ) (ht : ∀ j, t j ≤ m.truth_limits j)
    (sys : SystMode (T + 1) Unit) :
    m.log_likelihood t sys =
      (collapse_systematics sys
          (fun b (_ : Unit) =>
            log_probability (fun _ : Unit => m.data_vector) m.response_matrix
              (fun _ : Unit => t) () b ())).map (fun f => f ()) := by
  have hnot : ¬ ∃ j, m.truth_limits j < t j := by push_neg; exact ht
  have harr :
      (fun b (_ : Unit) =>
        log_probability (fun _ : Unit => m.data_vector) m.reduced_response_matrix
          (fun _ : Unit => m.reduce_truth_vector t) () b ()) =
      (fun b (_ : Unit) =>
        log_probability (fun _ : Unit => m.data_vector) m.response_matrix
          (fun _ : Unit => t) () b ()) := by
    funext b u
    show catchNonfinite (FloatVal.sum nr (fun k => poissonLogPMF (m.data_vector k)
          (∑ j : {j : Fin nt // m.eff j}, m.response_matrix b k j.1 * t j.1)))
        = catchNonfinite (FloatVal.sum nr (fun k => poissonLogPMF (m.data_vector k)
          (∑ j, m.response_matrix b k j * t j)))
    congr 1
    congr 1
    funext k
    rw [sum_subtype_eq_sum (m.eff) (fun j => m.response_matrix b k j * t j)
      (fun j hj => by
        show m.response_matrix b k j * t j = 0
        rw [response_zero_of_not_eff m hthr hR hj b k, zero_mul])]
  unfold log_likelihood reduced_log_likelihood
  rw [if_neg hnot]
  exact congrArg (Except.map fun f => f ()) (congrArg (collapse_systematics sys) harr)

/-- Witness for C5 at a concrete machine: threshold `0`, response `[[1]]`
stacked twice, data `[1]`, limits `[2]`, truth `[1]`. -/
theorem log_likelihood_reduction_lossless_witness :
    ((LikelihoodMachine.mk (fun _ : Fin 1 => 1) (fun (_ : Fin 2) _ _ => (1 : ℝ))
        (fun _ : Fin 1 => 2) "raise" 0).eff_threshold = 0) ∧
    (∀ b k j, 0 ≤ (LikelihoodMachine.mk (fun _ : Fin 1 => 1)
        (fun (_ : Fin 2) _ _ => (1 : ℝ)) (fun _ : Fin 1 => 2) "raise"
        0).response_matrix b k j) ∧
    (LikelihoodMachine.mk (fun _ : Fin 1 => 1) (fun (_ : Fin 2) _ _ => (1 : ℝ))
        (fun _ : Fin 1 => 2) "raise" 0).log_likelihood (fun _ => 1)
        (.str "profile") =
      (collapse_systematics (.str "profile")
          (fun b (_ : Unit) =>
            log_probability
              (fun _ : Unit => (LikelihoodMachine.mk (fun _ : Fin 1 => 1)
                (fun (_ : Fin 2) _ _ => (1 : ℝ)) (fun _ : Fin 1 => 2) "raise"
                0).data_vector)
              (LikelihoodMachine.mk (fun _ : Fin 1 => 1)
                (fun (_ : Fin 2) _ _ => (1 : ℝ)) (fun _ : Fin 1 => 2) "raise"
                0).response_matrix
              (fun _ : Unit => fun _ => 1) () b ())).map (fun f => f ()) :=
  ⟨rfl, fun _ _ _ => zero_le_one,
    log_likelihood_reduction_lossless
      (LikelihoodMachine.mk (fun _ : Fin 1 => 1) (fun (_ : Fin 2) _ _ => (1 : ℝ))
        (fun _ : Fin 1 => 2) "raise" 0) rfl (fun _ _ _ => zero_le_one)
      (fun _ => 1) (fun _ => by norm_num) (.str "profile")⟩

theorem pymod_eq_fract (a : ℝ) {r : ℝ} (hr : r ≠ 0) :
    pymod a r = r * Int.fract (a / r) := by
  unfold pymod Int.fract
  field_simp

theorem pymod_nonneg {a r : ℝ} (hr : 0 < r) : 0 ≤ pymod a r := by
  rw [pymod_eq_fract a hr.ne']
  exact mul_nonneg hr.le (Int.fract_nonneg _)

theorem pymod_lt {a r : ℝ} (hr : 0 < r) : pymod a r < r := by
  rw [pymod_eq_fract a hr.ne']
  calc r * Int.fract (a / r) < r * 1 :=
        mul_lt_mul_of_pos_left (Int.fract_lt_one _) hr
    _ = r := mul_one r

/-- C8: For finite bounds with `lower < upper`, the basin-hopping step
function maps every current point and every perturbation to a proposal
inside the bounds in every coordinate: a component exceeding its upper limit
becomes `upper - (excess mod range)`, a component below its lower limit
becomes `lower + (deficit mod range)`, and the proposal never leaves the
box. -/
theorem step_fun_stays_in_bounds {n : ℕ} (lower upper : Fin n → ℝ)
    (x dx : Fin n → ℝ) (i : Fin n) (h : lower i < upper i) :
    (lower i ≤ step_fun lower upper x dx i ∧
      step_fun lower upper x dx i ≤ upper i)
    ∧ (upper i < x i + dx i →
        step_fun lower upper x dx i =
          upper i - pymod (x i + dx i - upper i) (upper i - lower i))
    ∧ (x i + dx i < lower i →
        step_fun lower upper x dx i =
          lower i + pymod (lower i - (x i + dx i)) (upper i - lower i)) := by
  have hr : 0 < upper i - lower i := sub_pos.mpr h
  have hstep : step_fun lower upper x dx i =
      (if (if upper i < x i + dx i
            then upper i - pymod (x i + dx i - upper i) (upper i - lower i)
            else x i + dx i) < lower i
       then lower i + pymod (lower i -
          (if upper i < x i + dx i
            then upper i - pymod (x i + dx i - upper i) (upper i - lower i)
            else x i + dx i)) (upper i - lower i)
       else (if upper i < x i + dx i
            then upper i - pymod (x i + dx i - upper i) (upper i - lower i)
            else x i + dx i)) := rfl
  rw [hstep]
  by_cases h1 : upper i < x i + dx i
  · rw [if_pos h1]
    have hm0 : 0 ≤ pymod (x i + dx i - upper i) (upper i - lower i) :=
      pymod_nonneg hr
    have hm1 : pymod (x i + dx i - upper i) (upper i - lower i) <
        upper i - lower i := pymod_lt hr
    rw [if_neg (by linarith)]
    exact ⟨⟨by linarith, by linarith⟩, fun _ => rfl,
      fun h2 => absurd (h2.trans h) (not_lt.mpr h1.le)⟩
  · rw [if_neg h1]
    by_cases h2 : x i + dx i < lower i
    · rw [if_pos h2]
      have hm0 : 0 ≤ pymod (lower i - (x i + dx i)) (upper i - lower i) :=
        pymod_nonneg hr
      have hm1 : pymod (lower i - (x i + dx i)) (upper i - lower i) <
          upper i - lower i := pymod_lt hr
      exact ⟨⟨by linarith, by linarith⟩, fun hc => absurd hc h1, fun _ => rfl⟩
    · rw [if_neg h2]
      exact ⟨⟨not_lt.mp h2, not_lt.mp h1⟩, fun hc => absurd hc h1,
        fun hc => absurd hc h2⟩

/-- Witness for C8: bounds `[0, 10]`, current point `5`, perturbation `100`;
the proposal stays inside the box. -/
theorem step_fun_stays_in_bounds_witness :
    ((fun _ : Fin 1 => (0 : ℝ)) 0 < (fun _ : Fin 1 => (10 : ℝ)) 0) ∧
    ((fun _ : Fin 1 => (0 : ℝ)) 0 ≤
        step_fun (fun _ : Fin 1 => 0) (fun _ => 10) (fun _ => 5) (fun _ => 100) 0 ∧
      step_fun (fun _ : Fin 1 => 0) (fun _ => 10) (fun _ => 5) (fun _ => 100) 0 ≤
        (fun _ : Fin 1 => (10 : ℝ)) 0) :=
  ⟨by norm_num,
    (step_fun_stays_in_bounds (fun _ : Fin 1 => 0) (fun _ => 10) (fun _ => 5)
      (fun _ => 100) 0 (by norm_num)).1⟩

theorem reduced_log_likelihood_profile {T nr nt : ℕ}
    (m : LikelihoodMachine T nr nt)
    (rt : {j : Fin nt // m.eff j} → ℝ) :
    m.reduced_log_likelihood rt (.str "profile") =
      .ok (FloatVal.maxArr T (fun b =>
        log_probability (fun _ : Unit => m.data_vector)
          m.reduced_response_matrix (fun _ : Unit => rt) () b ())) := by
  unfold reduced_log_likelihood
  rw [collapse_profile_ok]
  rfl

theorem likelihood_p_value_profile_run {T nr nt : ℕ}
    (m : LikelihoodMachine T nr nt) (t : Fin nt → ℝ) (N : ℕ)
    (sample : Fin N → Fin (T + 1) → Fin nr → ℕ) :
    m.likelihood_p_value t N sample (.str "profile") =
      .ok (((Finset.univ.filter (fun j : Fin N × Fin (T + 1) =>
        (FloatVal.maxArr T (fun b =>
          log_probability (fun jj : Fin N × Fin (T + 1) => sample jj.1 jj.2)
            m.reduced_response_matrix
            (fun _ : Unit => m.reduce_truth_vector t) j b ())).fle
        (FloatVal.maxArr T (fun b =>
          log_probability (fun _ : Unit => m.data_vector)
            m.reduced_response_matrix
            (fun _ : Unit => m.reduce_truth_vector t) () b ())))).card : ℝ) / N) := by
  unfold likelihood_p_value
  simp only [systToShape]
  rw [reduced_log_likelihood_profile, collapse_profile_ok]
  rfl

/-- C3 (amended): With stacked response matrices and
`generator_matrix_index = None`, `likelihood_p_value` draws `N` fake data
sets for each of the `T + 1` response matrices, counts the fraction `n`
among all `N·(T + 1)` of them whose collapsed log-likelihood is at most the
real data's, and returns `n / N`, which lies in `[0, T + 1]` (not `[0, 1]`
in general). -/
theorem likelihood_p_value_bounds {T nr nt : ℕ} (m : LikelihoodMachine T nr nt)
    (t : Fin nt → ℝ) (N : ℕ) (hN : 0 < N)
    (sample : Fin N → Fin (T + 1) → Fin nr → ℕ) :
    ∃ n : ℕ, n ≤ N * (T + 1) ∧
      m.likelihood_p_value t N sample (.str "profile") = .ok ((n : ℝ) / N) ∧
      0 ≤ (n : ℝ) / N ∧ (n : ℝ) / N ≤ (T : ℝ) + 1 := by
  have hNR : (0 : ℝ) < N := Nat.cast_pos.mpr hN
  refine ⟨_, ?_, likelihood_p_value_profile_run m t N sample, ?_, ?_⟩
  · calc (Finset.univ.filter _).card ≤ Finset.univ.card := Finset.card_filter_le _ _
      _ = N * (T + 1) := by simp
  · exact div_nonneg (Nat.cast_nonneg _) (Nat.cast_nonneg _)
  · rw [div_le_iff₀ hNR]
    have hcard : (Finset.univ.filter (fun j : Fin N × Fin (T + 1) =>
        (FloatVal.maxArr T (fun b =>
          log_probability (fun jj : Fin N × Fin (T + 1) => sample jj.1 jj.2)
            m.reduced_response_matrix
            (fun _ : Unit => m.reduce_truth_vector t) j b ())).fle
        (FloatVal.maxArr T (fun b =>
          log_probability (fun _ : Unit => m.data_vector)
            m.reduced_response_matrix
            (fun _ : Unit => m.reduce_truth_vector t) () b ())))).card ≤
        N * (T + 1) := by
      calc _ ≤ Finset.univ.card := Finset.card_filter_le _ _
        _ = N * (T + 1) := by simp
    calc ((Finset.univ.filter _).card : ℝ) ≤ ((N * (T + 1) : ℕ) : ℝ) :=
          Nat.cast_le.mpr hcard
      _ = ((T : ℝ) + 1) * N := by push_cast; ring

/-- Witness for C3's amended statement at the concrete stacked machine. -/
theorem likelihood_p_value_bounds_witness :
    0 < 1 ∧ ∃ n : ℕ, n ≤ 1 * (1 + 1) ∧
      exampleMachine.likelihood_p_value (fun _ => 1) 1 (fun _ _ _ => 1)
        (.str "profile") = .ok ((n : ℝ) / ((1 : ℕ) : ℝ)) ∧
      0 ≤ (n : ℝ) / ((1 : ℕ) : ℝ) ∧ (n : ℝ) / ((1 : ℕ) : ℝ) ≤ ((1 : ℕ) : ℝ) + 1 :=
  ⟨Nat.one_pos,
    likelihood_p_value_bounds exampleMachine (fun _ => 1) 1 Nat.one_pos
      (fun _ _ _ => 1)⟩

/-- C3 (counterexample): On the machine with two stacked `[[1]]` response
matrices, data `[1]`, truth vector `[1]`, `N = 1` and the sampler outcome
where every drawn fake data set equals `[1]`, the code counts both generated
fake data sets (one per stacked matrix) but divides by `N = 1`, returning a
"p-value" of `2`, which is not in `[0, 1]`. -/
theorem likelihood_p_value_exceeds_one :
    exampleMachine.likelihood_p_value (fun _ => 1) 1 (fun _ _ _ => 1)
        (.str "profile") = .ok 2 ∧ ¬ ((2 : ℝ) ≤ 1) := by
  constructor
  · rw [likelihood_p_value_profile_run]
    have heff : ∀ j : Fin 1, exampleMachine.eff j := by
      intro j
      show (0 : ℝ) < _
      simp [exampleMachine, Finset.sup'_const]
    have hlam : ∀ (b : Fin 2) (k : Fin 1),
        (∑ j : {j : Fin 1 // exampleMachine.eff j},
          exampleMachine.response_matrix b k j.1 *
            exampleMachine.reduce_truth_vector (fun _ => 1) j) = 1 := by
      intro b k
      calc (∑ j : {j : Fin 1 // exampleMachine.eff j},
            exampleMachine.response_matrix b k j.1 *
              exampleMachine.reduce_truth_vector (fun _ => 1) j)
          = ∑ j', exampleMachine.response_matrix b k j' * 1 :=
            sum_subtype_eq_sum exampleMachine.eff
              (fun j' => exampleMachine.response_matrix b k j' * 1)
              (fun j hj => absurd (heff j) hj)
        _ = 1 := by simp [exampleMachine]
    have hpmf : poissonLogPMF 1 1 = .val (-1) := by
      unfold poissonLogPMF
      rw [if_neg (by norm_num), if_neg (by norm_num)]
      norm_num
    have hlp : ∀ {A : Type} (dv : A → Fin 1 → ℕ) (hdv : ∀ a k, dv a k = 1)
        (a : A) (b : Fin 2),
        log_probability dv exampleMachine.reduced_response_matrix
          (fun _ : Unit => exampleMachine.reduce_truth_vector (fun _ => 1))
          a b () = .val (-1) := by
      intro A dv hdv a b
      show catchNonfinite (FloatVal.sum 1 (fun k => poissonLogPMF (dv a k)
          (∑ j : {j : Fin 1 // exampleMachine.eff j},
            exampleMachine.response_matrix b k j.1 *
              exampleMachine.reduce_truth_vector (fun _ => 1) j))) = .val (-1)
      simp only [hlam, hdv, hpmf]
      simp [FloatVal.sum, FloatVal.add, catchNonfinite]
    have hmax : FloatVal.maxArr 1 (fun _ : Fin 2 => FloatVal.val (-1)) =
        .val (-1) := by
      simp [FloatVal.maxArr, FloatVal.fmax]
    have hprob : ∀ j : Fin 1 × Fin 2,
        FloatVal.maxArr 1 (fun b =>
          log_probability (fun _ : Fin 1 × Fin 2 => fun _ : Fin 1 => (1 : ℕ))
            exampleMachine.reduced_response_matrix
            (fun _ : Unit => exampleMachine.reduce_truth_vector (fun _ => 1))
            j b ()) = .val (-1) := by
      intro j
      rw [show (fun b : Fin 2 =>
          log_probability (fun _ : Fin 1 × Fin 2 => fun _ : Fin 1 => (1 : ℕ))
            exampleMachine.reduced_response_matrix
            (fun _ : Unit => exampleMachine.reduce_truth_vector (fun _ => 1))
            j b ()) = fun _ : Fin 2 => FloatVal.val (-1) from
        funext (fun b => hlp _ (fun _ _ => rfl) j b)]
      exact hmax
    have hp0 : FloatVal.maxArr 1 (fun b =>
        log_probability (fun _ : Unit => exampleMachine.data_vector)
          exampleMachine.reduced_response_matrix
          (fun _ : Unit => exampleMachine.reduce_truth_vector (fun _ => 1))
          () b ()) = .val (-1) := by
      rw [show (fun b : Fin 2 =>
          log_probability (fun _ : Unit => exampleMachine.data_vector)
            exampleMachine.reduced_response_matrix
            (fun _ : Unit => exampleMachine.reduce_truth_vector (fun _ => 1))
            () b ()) = fun _ : Fin 2 => FloatVal.val (-1) from
        funext (fun b => hlp _ (fun _ _ => rfl) () b)]
      exact hmax
    simp only [hprob, hp0, FloatVal.fle]
    rw [Finset.filter_true_of_mem (fun j _ => le_refl (-1 : ℝ))]
    simp
  · norm_num

end LikelihoodMachine

/-! Facts about the extended IEEE values of the Fisher-matrix computation. -/

namespace FloatExt

theorem add_eq_val {x y : FloatExt} {c : ℝ} (h : x.add y = val c) :
    ∃ a b, x = val a ∧ y = val b ∧ c = a + b := by
  cases x <;> cases y <;> simp_all [add]

theorem nansum_val_of_val : ∀ {n : ℕ} {f : Fin n → FloatExt},
    (∀ k, ∃ y, f k = val y) → ∃ x, nansum n f = val x
  | 0, _, _ => ⟨0, rfl⟩
  | n + 1, f, H => by
    obtain ⟨y, hy⟩ := H 0
    obtain ⟨x, hx⟩ := nansum_val_of_val (fun k => H k.succ)
    refine ⟨y + x, ?_⟩
    show (denan (f 0)).add (nansum n (fun i => f i.succ)) = val (y + x)
    rw [hy, hx]
    rfl

theorem nansum_eq_val_sum {n : ℕ} {f : Fin n → FloatExt} {r : Fin n → ℝ}
    (H : ∀ k, denan (f k) = val (r k) ∨ f k = posinf ∨ f k = neginf)
    {x : ℝ} (h : nansum n f = val x) : x = ∑ k, r k := by
  induction n generalizing x with
  | zero =>
    rw [Fin.sum_univ_zero]
    have h0 : val (0 : ℝ) = val x := h
    injection h0 with h1
    exact h1.symm
  | succ n ih =>
    have h' : (denan (f 0)).add (nansum n (fun i => f i.succ)) = val x := h
    obtain ⟨a, b, ha, hb, hxab⟩ := add_eq_val h'
    have h0 : a = r 0 := by
      rcases H 0 with hh | hh | hh
      · have h2 : val a = val (r 0) := ha.symm.trans hh
        injection h2
      · rw [hh] at ha
        exact absurd ha (by simp [denan])
      · rw [hh] at ha
        exact absurd ha (by simp [denan])
    have hres : b = ∑ k : Fin n, r k.succ := ih (fun k => H k.succ) hb
    rw [hxab, h0, hres, Fin.sum_univ_succ]

/-- Case analysis of one nansum term `(nf₁/d₁)·(nf₂/d₂)/e` of the Fisher
computation, assuming each zero finite-difference denominator comes with a
zero numerator: the IEEE term is either finite and (after the NaN-drop of
the nansum) equal to the exact-arithmetic term, or it is an infinity. -/
theorem ieee_term_cases (nf₁ nf₂ d₁ d₂ e : ℝ) (h₁ : d₁ = 0 → nf₁ = 0)
    (h₂ : d₂ = 0 → nf₂ = 0) :
    denan (div ((div (val nf₁) (val d₁)).mul (div (val nf₂) (val d₂)))
        (val e)) =
      val (nf₁ / d₁ * (nf₂ / d₂) / e) ∨
    div ((div (val nf₁) (val d₁)).mul (div (val nf₂) (val d₂))) (val e) =
      posinf ∨
    div ((div (val nf₁) (val d₁)).mul (div (val nf₂) (val d₂))) (val e) =
      neginf := by
  by_cases hd₁ : d₁ = 0
  · left
    have hn₁ : nf₁ = 0 := h₁ hd₁
    subst hd₁
    subst hn₁
    simp [div, mul, denan]
  · by_cases hd₂ : d₂ = 0
    · left
      have hn₂ : nf₂ = 0 := h₂ hd₂
      subst hd₂
      subst hn₂
      simp [div, mul, denan, hd₁]
    · by_cases he : e = 0
      · rcases lt_trichotomy (nf₁ / d₁ * (nf₂ / d₂)) 0 with hp | hp | hp
        · right; right
          simp [div, mul, hd₁, hd₂, he, hp.ne, not_lt.mpr hp.le]
        · left
          simp [div, mul, denan, hd₁, hd₂, he, hp]
        · right; left
          simp [div, mul, hd₁, hd₂, he, hp, hp.ne']
      · left
        simp [div, mul, denan, hd₁, hd₂, he]

end FloatExt

namespace JeffreysPrior

/-- Any finite entry of the float Fisher computation equals the
corresponding entry of the exact-arithmetic Fisher matrix: the nansum drops
exactly the `0·0/0` and zero-step NaN terms, whose exact counterparts are
`0` under the convention `a / 0 = 0`, and a finite result rules out the
infinite terms. -/
theorem fisher_ieee_val_eq {T p nr nt : ℕ} (J : JeffreysPrior T p nr nt)
    (value : Fin p → ℝ) (toy_index : Fin (T + 1)) (i j : Fin p) {x : ℝ}
    (h : J.fisher_matrix_ieee value toy_index i j = FloatExt.val x) :
    x = J.fisher_matrix value toy_index i j := by
  have hside : ∀ (i' : Fin p) (k : Fin nr), 2 * J.dx i' = 0 →
      J.reco_expectation toy_index
          (Function.update value i' (value i' + J.dx i')) k -
        J.reco_expectation toy_index
          (Function.update value i' (value i' - J.dx i')) k = 0 := by
    intro i' k hd
    have hdx0 : J.dx i' = 0 := by linarith
    rw [hdx0, add_zero, sub_zero, sub_self]
  have hx : FloatExt.nansum nr (fun k =>
      FloatExt.div
        ((FloatExt.div
            (FloatExt.val
              (J.reco_expectation toy_index
                  (Function.update value i (value i + J.dx i)) k -
                J.reco_expectation toy_index
                  (Function.update value i (value i - J.dx i)) k))
            (FloatExt.val (2 * J.dx i))).mul
          (FloatExt.div
            (FloatExt.val
              (J.reco_expectation toy_index
                  (Function.update value j (value j + J.dx j)) k -
                J.reco_expectation toy_index
                  (Function.update value j (value j - J.dx j)) k))
            (FloatExt.val (2 * J.dx j))))
        (FloatExt.val (J.reco_expectation toy_index value k))) =
      FloatExt.val x := h
  have hsum := FloatExt.nansum_eq_val_sum
    (fun k => FloatExt.ieee_term_cases _ _ _ _ _ (hside i k) (hside j k)) hx
  exact hsum.trans rfl

/-- When every finite-difference step is nonzero and every reco expectation
at the evaluation point is nonzero, the float Fisher computation is finite
in every entry. -/
theorem fisher_ieee_finite {T p nr nt : ℕ} (J : JeffreysPrior T p nr nt)
    (value : Fin p → ℝ) (toy_index : Fin (T + 1))
    (hdx : ∀ i, J.dx i ≠ 0)
    (hexp : ∀ k, J.reco_expectation toy_index value k ≠ 0) (i j : Fin p) :
    ∃ x, J.fisher_matrix_ieee value toy_index i j = FloatExt.val x := by
  apply FloatExt.nansum_val_of_val
  intro k
  have h2i : (2 * J.dx i) ≠ 0 := mul_ne_zero two_ne_zero (hdx i)
  have h2j : (2 * J.dx j) ≠ 0 := mul_ne_zero two_ne_zero (hdx j)
  refine ⟨(J.reco_expectation toy_index
        (Function.update value i (value i + J.dx i)) k -
      J.reco_expectation toy_index
        (Function.update value i (value i - J.dx i)) k) / (2 * J.dx i) *
      ((J.reco_expectation toy_index
          (Function.update value j (value j + J.dx j)) k -
        J.reco_expectation toy_index
          (Function.update value j (value j - J.dx j)) k) / (2 * J.dx j)) /
      J.reco_expectation toy_index value k, ?_⟩
  show FloatExt.div
      ((FloatExt.div (FloatExt.val _) (FloatExt.val (2 * J.dx i))).mul
        (FloatExt.div (FloatExt.val _) (FloatExt.val (2 * J.dx j))))
      (FloatExt.val (J.reco_expectation toy_index value k)) = FloatExt.val _
  simp [FloatExt.div, FloatExt.mul, h2i, h2j, hexp k]

/-- C7: The Jeffreys prior returns `-inf` whenever a parameter lies strictly
below its lower limit or strictly above its upper limit, and whenever the
translated total truth exceeds the total truth limit; otherwise, when the
response is well-conditioned at the evaluation point (every entry of the
float Fisher matrix finite, determinant positive), it returns the finite
value `0.5·ln(det(Fisher))`. -/
theorem call_spec {T p nr nt : ℕ} (J : JeffreysPrior T p nr nt)
    (value : Fin p → ℝ) (toy_index : Fin (T + 1)) :
    ((∃ i, (value i : EReal) < J.lower_limits i ∨
        J.upper_limits i < (value i : EReal)) →
      J.call value toy_index = some .neginf)
    ∧ (J.total_truth_limit < ((∑ l, J.translate value l : ℝ) : EReal) →
      J.call value toy_index = some .neginf)
    ∧ ((∀ i, J.lower_limits i ≤ (value i : EReal) ∧
        (value i : EReal) ≤ J.upper_limits i) →
      ((∑ l, J.translate value l : ℝ) : EReal) ≤ J.total_truth_limit →
      (∀ i j, ∃ x, J.fisher_matrix_ieee value toy_index i j = FloatExt.val x) →
      0 < (J.fisher_matrix value toy_index).det →
      J.call value toy_index =
        some (.val (0.5 * Real.log (J.fisher_matrix value toy_index).det))) := by
  refine ⟨?_, ?_, ?_⟩
  · rintro ⟨i, hi⟩
    unfold call
    rw [if_pos]
    rcases hi with hi | hi
    · exact Or.inl ⟨i, hi⟩
    · exact Or.inr ⟨i, hi⟩
  · intro h2
    unfold call
    by_cases hb : (∃ i, (value i : EReal) < J.lower_limits i) ∨
        (∃ i, J.upper_limits i < (value i : EReal))
    · rw [if_pos hb]
    · rw [if_neg hb, if_pos h2]
  · intro hin htot hfin hdet
    unfold call
    rw [if_neg, if_neg (not_lt.mpr htot), if_pos hfin, if_neg hdet.ne',
      abs_of_pos hdet]
    rintro (⟨i, hi⟩ | ⟨i, hi⟩)
    · exact absurd hi (not_lt.mpr (hin i).1)
    · exact absurd hi (not_lt.mpr (hin i).2)

/-- Witness for C7: the concrete one-parameter prior at the default value
`1`, whose float Fisher matrix is finite with value `[[1]]`. -/
theorem call_spec_witness :
    (∀ i : Fin 1, exampleJeffreys.lower_limits i ≤
        (((fun _ : Fin 1 => (1 : ℝ)) i : ℝ) : EReal) ∧
      (((fun _ : Fin 1 => (1 : ℝ)) i : ℝ) : EReal) ≤
        exampleJeffreys.upper_limits i) ∧
    ((∑ l, exampleJeffreys.translate (fun _ => 1) l : ℝ) : EReal) ≤
      exampleJeffreys.total_truth_limit ∧
    (∀ i j : Fin 1, ∃ x,
      exampleJeffreys.fisher_matrix_ieee (fun _ => 1) 0 i j = FloatExt.val x) ∧
    0 < (exampleJeffreys.fisher_matrix (fun _ => 1) 0).det ∧
    exampleJeffreys.call (fun _ => 1) 0 =
      some (.val (0.5 * Real.log (exampleJeffreys.fisher_matrix (fun _ => 1) 0).det)) := by
  have hdet : (exampleJeffreys.fisher_matrix (fun _ => 1) 0).det = 1 := by
    rw [Matrix.det_fin_one]
    simp [fisher_matrix, reco_expectation, exampleJeffreys, Function.update_same,
      Fin.sum_univ_one]
    norm_num
  have hfin : ∀ i j : Fin 1, ∃ x,
      exampleJeffreys.fisher_matrix_ieee (fun _ => 1) 0 i j = FloatExt.val x := by
    apply fisher_ieee_finite
    · intro i
      norm_num [exampleJeffreys]
    · intro k
      simp [reco_expectation, exampleJeffreys, Fin.sum_univ_one]
  have hin : ∀ i : Fin 1, exampleJeffreys.lower_limits i ≤
      (((fun _ : Fin 1 => (1 : ℝ)) i : ℝ) : EReal) ∧
      (((fun _ : Fin 1 => (1 : ℝ)) i : ℝ) : EReal) ≤
        exampleJeffreys.upper_limits i :=
    fun i => ⟨bot_le, le_top⟩
  have htot : ((∑ l, exampleJeffreys.translate (fun _ => 1) l : ℝ) : EReal) ≤
      exampleJeffreys.total_truth_limit := le_top
  refine ⟨hin, htot, hfin, by rw [hdet]; norm_num, ?_⟩
  exact (call_spec exampleJeffreys (fun _ => 1) 0).2.2 hin htot hfin
    (by rw [hdet]; norm_num)

/-- C10: Constructing a JeffreysPrior with a `dx` array of two or more step
sizes raises at construction time (Python's truth-value test in
`dx or numpy.full(...)` is ambiguous for multi-element arrays); only
`dx = None` or a single-element value is accepted. -/
theorem init_dx_multi_element (npar : ℕ) :
    (∀ a : List ℝ, 2 ≤ a.length →
      init_dx npar (some a) =
        .error "The truth value of an array with more than one element is ambiguous.")
    ∧ init_dx npar none = .ok (List.replicate npar (1 / 1000))
    ∧ (∀ x : ℝ, ∃ r, init_dx npar (some [x]) = .ok r) := by
  refine ⟨?_, rfl, ?_⟩
  · intro a ha
    match a with
    | [] => simp at ha
    | [x] => simp at ha
    | x :: y :: rest => rfl
  · intro x
    by_cases hx : x = 0
    · exact ⟨List.replicate npar (1 / 1000),
        by simp [init_dx, ndarray_truth_value, hx]⟩
    · exact ⟨[x], by simp [init_dx, ndarray_truth_value, hx]⟩

/-- Witness for C10: the two-element step array `[1, 2]` raises. -/
theorem init_dx_multi_element_witness :
    2 ≤ ([(1 : ℝ), 2]).length ∧
    init_dx 2 (some [(1 : ℝ), 2]) =
      .error "The truth value of an array with more than one element is ambiguous." :=
  ⟨by norm_num, (init_dx_multi_element 2).1 [(1 : ℝ), 2] (by norm_num)⟩

end JeffreysPrior

end
